import Mathlib

/-!
Verification of the markdown-merge plugin core (`main.ts`).

The plugin operates on the host's virtual file tree.  We shallowly embed:

* the vault tree as an inductive type of file/folder nodes (`VNode`);
* the JavaScript string primitives the code uses (`trim`, `toLowerCase`,
  `endsWith`, `startsWith`, `split`, first-occurrence `replace`, the
  regex-based stripping of leading/trailing slashes) as executable functions on
  `String` via its underlying character list;
* `String.prototype.localeCompare` as code-point lexicographic comparison
  (`strLe`), a total-order model of the host's locale-aware comparison;
* `Array.prototype.sort` (stable per the ECMAScript spec) as stable
  insertion sort (`List.insertionSort`);
* the `minimatch` glob library as an abstract matcher parameter
  (`GlobMatcher`), since it is an externally supplied capability;
* the stack-based `while` loop of `collectMarkdownFiles` as a fuel-indexed
  recursion, where the fuel bounds the number of loop iterations; the
  iteration count is bounded by the total node count of the start folder
  (`nsize`), which `collectMarkdownFiles` passes as fuel;
* the vault's stateful surface (`getFolderByPath`, `createFolder`,
  `getFileByPath`, `read`, `create`, `modify`) as explicit state passing
  over a `Vault` record holding the folder-path set and the file
  path/content association list, plus the tree snapshot used for traversal.
-/

/-! ## JavaScript string primitives, modelled on character lists -/

/-- Character-list core of `String.prototype.trim`: drop whitespace from
both ends. -/
def jsTrimList (l : List Char) : List Char :=
  ((l.dropWhile Char.isWhitespace).reverse.dropWhile Char.isWhitespace).reverse

/-- Models `String.prototype.trim`. -/
def jsTrim (s : String) : String := ⟨jsTrimList s.data⟩

/-- Models `String.prototype.toLowerCase`, per-character lowering. -/
def jsToLower (s : String) : String := ⟨s.data.map Char.toLower⟩

/-- Does the second list begin with the first? -/
def hasPre : List Char → List Char → Bool
  | [], _ => true
  | _ :: _, [] => false
  | p :: ps, c :: cs => p = c && hasPre ps cs

/-- Models `String.prototype.startsWith`. -/
def jsStartsWith (s pre : String) : Bool := hasPre pre.data s.data

/-- Models `String.prototype.endsWith`. -/
def jsEndsWith (s suf : String) : Bool := hasPre suf.data.reverse s.data.reverse

/-- Character-list core of `String.prototype.replace` with a string
pattern: replace the first occurrence only. -/
def replaceFirstList (pat rep : List Char) : List Char → List Char
  | [] => if hasPre pat [] then rep else []
  | c :: cs =>
    if hasPre pat (c :: cs) then rep ++ (c :: cs).drop pat.length
    else c :: replaceFirstList pat rep cs

/-- Models `String.prototype.replace(pat, rep)` with a plain string
pattern: only the first occurrence is replaced. -/
def replaceFirst (s pat rep : String) : String :=
  ⟨replaceFirstList pat.data rep.data s.data⟩

/-- Character-list core of `String.prototype.split(sep)` for a
single-character separator; `"".split(sep)` is `[""]`. -/
def splitListOn (sep : Char) : List Char → List (List Char)
  | [] => [[]]
  | c :: cs =>
    if c = sep then [] :: splitListOn sep cs
    else
      match splitListOn sep cs with
      | [] => [[c]]
      | h :: t => (c :: h) :: t

/-- Models `String.prototype.split(sep)` for a one-character separator. -/
def splitOnChar (sep : Char) (s : String) : List String :=
  (splitListOn sep s.data).map (fun l => ⟨l⟩)

/-- Models the regex replacement stripping the output folder, which
removes every leading and every trailing `/`. -/
def stripSlashes (s : String) : String :=
  ⟨((s.data.dropWhile (· = '/')).reverse.dropWhile (· = '/')).reverse⟩

/-- Code-point lexicographic order on character lists; model of the
ordering induced by `localeCompare`. -/
def lexLe : List Char → List Char → Bool
  | [], _ => true
  | _ :: _, [] => false
  | a :: as, b :: bs => if a = b then lexLe as bs else decide (a.toNat < b.toNat)

/-- Models ascending comparison by `a.localeCompare(b)`: locale-aware
lexicographic order, modelled as code-point lexicographic order. -/
def strLe (a b : String) : Bool := lexLe a.data b.data

/-! ## Data model: the vault's virtual file tree -/

/-- A `TFile` of the host API: the attributes the plugin reads.  In the
host, `name` is the last path segment, `basename` is `name` with the
extension stripped, and `extension` is the text after the final dot. -/
structure VFile where
  path : String
  name : String
  basename : String
  extension : String
  deriving Repr, DecidableEq

/-- A node of the vault tree: a `TFile` leaf or a `TFolder` with its
`children` array. -/
inductive VNode where
  | file (f : VFile) : VNode
  | dir (name : String) (path : String) (children : List VNode) : VNode
  deriving Repr

/-- The `children` array of a node (`[]` on a file). -/
def VNode.childrenOf : VNode → List VNode
  | .file _ => []
  | .dir _ _ cs => cs

/-- The `instanceof TFolder` test. -/
def VNode.isDir : VNode → Bool
  | .file _ => false
  | .dir _ _ _ => true

mutual

/-- Total node count of a tree; bounds the iteration count of the
collection loop started on that tree. -/
def nsize : VNode → Nat
  | .file _ => 1
  | .dir _ _ cs => 1 + lsize cs

/-- Total node count of a forest. -/
def lsize : List VNode → Nat
  | [] => 0
  | c :: cs => nsize c + lsize cs

end

/-! ## Plugin settings -/

/-- The `MergePluginSettings` interface. -/
structure MergePluginSettings where
  folderName : String
  outputFolder : String
  outputFileName : String
  includeHidden : Bool
  excludedFiles : String
  recursive : Bool
  showRibbonIcon : Bool
  deriving Repr, DecidableEq

/-- The `DEFAULT_SETTINGS` constant. -/
def DEFAULT_SETTINGS : MergePluginSettings :=
  { folderName := ""
    outputFolder := "merged"
    outputFileName := "merged-output-{date}.md"
    includeHidden := false
    excludedFiles := ""
    recursive := false
    showRibbonIcon := true }

/-- The `minimatch` glob library, an externally supplied capability,
abstracted as a matcher taking a path and a pattern. -/
def GlobMatcher : Type := String → String → Bool

/-! ## The file collector (`collectMarkdownFiles`) -/

/-- The file filter of `collectMarkdownFiles`: the extension equals
`md`, the path differs from `outputPath`, no excluded pattern matches the
path under `minimatch`, and either `includeHidden` is set or the name
does not start with a dot. -/
def fileEligible (includeHidden : Bool) (matcher : GlobMatcher)
    (outputPath : String) (excludedPatterns : List String) (f : VFile) : Bool :=
  f.extension == "md" && f.path != outputPath &&
    !(excludedPatterns.any (fun pat => matcher f.path pat)) &&
    (includeHidden || !(jsStartsWith f.name "."))

/-- One child of the `for (const child of current.children)` loop, on the
file side: the collected file when the child is a file passing the filter,
`none` otherwise. -/
def eligibleChild (includeHidden : Bool) (matcher : GlobMatcher)
    (outputPath : String) (excludedPatterns : List String) : VNode → Option VFile
  | .file f =>
    if fileEligible includeHidden matcher outputPath excludedPatterns f
    then some f else none
  | .dir _ _ _ => none

/-- The stack-based `while (stack.length)` loop of `collectMarkdownFiles`.
The stack is kept top-first, so `stack.pop()` is taking the head, and the
`for` loop pushing the folder children in order means the reversed folder
children sit on top.  `fuel` bounds the number of iterations; each
iteration consumes one popped node, and `lsize stack` iterations always
suffice because every pushed node is a strict subtree of the popped one. -/
def collectLoop (recursive includeHidden : Bool) (matcher : GlobMatcher)
    (outputPath : String) (excludedPatterns : List String) :
    Nat → List VNode → List VFile
  | 0, _ => []
  | _ + 1, [] => []
  | fuel + 1, current :: rest =>
    let found := current.childrenOf.filterMap
      (eligibleChild includeHidden matcher outputPath excludedPatterns)
    let pushed :=
      if recursive then (current.childrenOf.filter VNode.isDir).reverse else []
    found ++ collectLoop recursive includeHidden matcher outputPath
      excludedPatterns fuel (pushed ++ rest)

/-- `collectMarkdownFiles(folder, outputPath, excludedPatterns)`: run the
stack loop from the start folder, then
`files.sort((a, b) => a.name.localeCompare(b.name))`, modelled as stable
insertion sort by `strLe` on `name`. -/
def collectMarkdownFiles (s : MergePluginSettings) (matcher : GlobMatcher)
    (folder : VNode) (outputPath : String) (excludedPatterns : List String) :
    List VFile :=
  List.insertionSort (fun a b => strLe a.name b.name = true)
    (collectLoop s.recursive s.includeHidden matcher outputPath
      excludedPatterns (nsize folder) [folder])

/-- The folders the stack loop pops (and hence scans the children of),
with the same fuel discipline as `collectLoop`. -/
def reachableDirs (recursive : Bool) : Nat → List VNode → List VNode
  | 0, _ => []
  | _ + 1, [] => []
  | fuel + 1, current :: rest =>
    current :: reachableDirs recursive fuel
      ((if recursive then (current.childrenOf.filter VNode.isDir).reverse else [])
        ++ rest)

example :
    collectMarkdownFiles DEFAULT_SETTINGS (fun _ _ => false)
      (.dir "" "" [.file ⟨"x.md", "x.md", "x", "md"⟩,
                   .dir "d" "d" [.file ⟨"d/y.md", "y.md", "y", "md"⟩]])
      "merged/out.md" [] = [⟨"x.md", "x.md", "x", "md"⟩] := by decide

example :
    collectMarkdownFiles { DEFAULT_SETTINGS with recursive := true }
      (fun _ _ => false)
      (.dir "" "" [.file ⟨"x.md", "x.md", "x", "md"⟩,
                   .dir "d" "d" [.file ⟨"d/y.md", "y.md", "y", "md"⟩]])
      "merged/out.md" []
      = [⟨"x.md", "x.md", "x", "md"⟩, ⟨"d/y.md", "y.md", "y", "md"⟩] := by decide

/-! ## Destination resolution (`mergeMarkdownFiles`, lines 79-90) -/

/-- Destination-path computation of `mergeMarkdownFiles`: trim the two
settings, substitute the first `{date}` occurrence with the current
`YYYY-MM-DD` date (taken as a parameter, for the date part of
`new Date().toISOString()`), append `.md` unless the lowercased name already ends
with it, strip leading/trailing slashes off the folder, and join with `/`
(folder omitted when empty). -/
def resolveDestination (outputFolderSetting outputFileNameSetting today : String) :
    String :=
  let outputFolder := jsTrim outputFolderSetting
  let name0 := jsTrim outputFileNameSetting
  let name1 := replaceFirst name0 "{date}" today
  let outputFileName :=
    if jsEndsWith (jsToLower name1) ".md" then name1 else name1 ++ ".md"
  let folderPath := stripSlashes outputFolder
  if folderPath = "" then outputFileName
  else folderPath ++ "/" ++ outputFileName

/-- Modelled from the spec (§4.4 Output Writer, `resolveDestination`), the
only description of the contract in the spec's own words: substitute
`{date}` in the trimmed filename template with the invocation's current
date, append a `.md` suffix if the resulting name does not already end
with one case-insensitively, strip leading and trailing path separators
from the output folder component, and join folder and filename with a
single separator, omitting the folder segment entirely when it is
empty. -/
def specResolveDestination (outputFolderSetting outputFileNameSetting today : String) :
    String :=
  let datedName := replaceFirst (jsTrim outputFileNameSetting) "{date}" today
  let fileName :=
    if jsEndsWith (jsToLower datedName) ".md" then datedName
    else datedName ++ ".md"
  let folderSegment := stripSlashes (jsTrim outputFolderSetting)
  if folderSegment = "" then fileName else folderSegment ++ "/" ++ fileName

/-! ## Folder creation (`ensureFolderExists`) -/

/-- The `for (const part of parts)` loop of `ensureFolderExists`, acting
on the set of existing folder paths.  Returns the updated folder set and,
in order, the paths passed to `vault.createFolder` (a creation happens
only when `vault.getFolderByPath(currentPath)` found nothing). -/
def ensureFolderLoop (folders : List String) (currentPath : String) :
    List String → List String × List String
  | [] => (folders, [])
  | part :: parts =>
    let cp := if currentPath = "" then part else currentPath ++ "/" ++ part
    if cp ∈ folders then ensureFolderLoop folders cp parts
    else
      let res := ensureFolderLoop (folders ++ [cp]) cp parts
      (res.fst, cp :: res.snd)

/-- `ensureFolderExists(path)`: return unchanged on the empty path, else
split on `/` and create each absent prefix left to right. -/
def ensureFolderExists (path : String) (folders : List String) :
    List String × List String :=
  if path = "" then (folders, [])
  else ensureFolderLoop folders "" (splitOnChar '/' path)

/-- The successive `currentPath` values of the `ensureFolderExists` loop:
the `/`-separated prefix chain of the path. -/
def chainPaths (currentPath : String) : List String → List String
  | [] => []
  | part :: parts =>
    let cp := if currentPath = "" then part else currentPath ++ "/" ++ part
    cp :: chainPaths cp parts

/-- The full prefix chain of a destination folder path. -/
def folderChain (path : String) : List String :=
  chainPaths "" (splitOnChar '/' path)

/-! ## The vault state and the merge orchestrator (`mergeMarkdownFiles`) -/

/-- The vault state the merge touches: the tree snapshot used to resolve
the source folder and traverse it, the set of existing folder paths
(consulted by `getFolderByPath`, extended by `createFolder`), and the file
path/content association list (consulted by `getFileByPath`/`read`,
updated by `create`/`modify`). -/
structure Vault where
  tree : VNode
  folders : List String
  files : List (String × String)

mutual

/-- `vault.getFolderByPath(target)` over the tree snapshot: the folder
node with the given path, if any. -/
def findFolder : VNode → String → Option VNode
  | .file _, _ => none
  | .dir n p cs, target =>
    if p = target then some (.dir n p cs) else findFolderInList cs target

/-- Helper of `findFolder`: first hit in a forest. -/
def findFolderInList : List VNode → String → Option VNode
  | [], _ => none
  | c :: cs, target =>
    match findFolder c target with
    | some d => some d
    | none => findFolderInList cs target

end

/-- Source-folder resolution of `mergeMarkdownFiles` (lines 66-77):
`vault.getRoot()` when the trimmed `folderName` is blank, else
`vault.getFolderByPath(folderName)`. -/
def resolveSourceFolder (s : MergePluginSettings) (v : Vault) : Option VNode :=
  if jsTrim s.folderName = "" then some v.tree
  else findFolder v.tree s.folderName

/-- The exclusion-pattern parse of `mergeMarkdownFiles`: split the
`excludedFiles` setting on commas, trim each entry, drop the empty
ones (`filter(Boolean)`). -/
def parseExcludedPatterns (excludedFiles : String) : List String :=
  ((splitOnChar ',' excludedFiles).map jsTrim).filter (fun s => s ≠ "")

/-- `vault.read(file)` (content of the file at a path; absent files are
never read by the merge, so the default is irrelevant). -/
def readFile (v : Vault) (path : String) : String :=
  (v.files.lookup path).getD ""

/-- The final write step: `vault.modify` when `getFileByPath(outputPath)`
finds an existing file, else `vault.create`. -/
def writeOutput (path content : String) (v : Vault) : Vault :=
  match v.files.lookup path with
  | some _ =>
    { v with files := v.files.map (fun e => if e.fst = path then (path, content) else e) }
  | none => { v with files := v.files ++ [(path, content)] }

/-- `mergeMarkdownFiles()`: the merge orchestrator as a state transition
on the vault, also returning the `Notice` messages it emits.  `today` is
the invocation's wall-clock date string; creation of the destination
folders never fails in the model, so the `catch` branch around
`ensureFolderExists` is not represented. -/
def mergeMarkdownFiles (s : MergePluginSettings) (matcher : GlobMatcher)
    (today : String) (v : Vault) : Vault × List String :=
  match resolveSourceFolder s v with
  | none =>
    (v, ["Folder \"" ++ s.folderName ++ "\" not found or is not a folder."])
  | some folder =>
    let outputPath := resolveDestination s.outputFolder s.outputFileName today
    let folderPath := stripSlashes (jsTrim s.outputFolder)
    let v1 : Vault := { v with folders := (ensureFolderExists folderPath v.folders).fst }
    let excludedPatterns := parseExcludedPatterns s.excludedFiles
    let files := collectMarkdownFiles s matcher folder outputPath excludedPatterns
    if files.length = 0 then (v1, ["No markdown files found to merge."])
    else
      let mergedContent := String.join (files.map (fun f =>
        "# " ++ f.basename ++ "\n\n" ++ jsTrim (readFile v1 f.path) ++ "\n\n"))
      let v2 := writeOutput outputPath mergedContent v1
      (v2, ["Merged " ++ toString files.length ++ " files into " ++ outputPath])

/-! ## Size bookkeeping for the traversal fuel -/

theorem nsize_pos (n : VNode) : 1 ≤ nsize n := by
  cases n <;> simp [nsize]

theorem lsize_append (a b : List VNode) : lsize (a ++ b) = lsize a + lsize b := by
  induction a with
  | nil => simp [lsize]
  | cons c cs ih => simp [lsize, ih]; omega

theorem lsize_reverse (l : List VNode) : lsize l.reverse = lsize l := by
  induction l with
  | nil => rfl
  | cons c cs ih =>
    simp [lsize, List.reverse_cons, lsize_append, ih]
    omega

theorem lsize_filter_le (p : VNode → Bool) (l : List VNode) :
    lsize (l.filter p) ≤ lsize l := by
  induction l with
  | nil => simp [lsize]
  | cons c cs ih =>
    have := nsize_pos c
    by_cases h : p c = true <;> simp [List.filter_cons, h, lsize] <;> omega

theorem lsize_childrenOf_lt (n : VNode) : lsize n.childrenOf < nsize n := by
  cases n <;> simp [VNode.childrenOf, nsize, lsize]

theorem lsize_pushed_le (recursive : Bool) (n : VNode) :
    lsize ((if recursive then (n.childrenOf.filter VNode.isDir).reverse else [])) <
      nsize n := by
  have h1 := lsize_filter_le VNode.isDir n.childrenOf
  have h2 := lsize_childrenOf_lt n
  have h3 := nsize_pos n
  cases recursive <;> simp [lsize, lsize_reverse] <;> omega

/-! ## Membership characterization of the collection loop -/

theorem eligibleChild_eq_some (includeHidden : Bool) (matcher : GlobMatcher)
    (outputPath : String) (excludedPatterns : List String) (c : VNode) (f : VFile) :
    eligibleChild includeHidden matcher outputPath excludedPatterns c = some f ↔
      (c = VNode.file f ∧
        fileEligible includeHidden matcher outputPath excludedPatterns f = true) := by
  cases c with
  | file g =>
    by_cases h : fileEligible includeHidden matcher outputPath excludedPatterns g = true
    · simp only [eligibleChild, if_pos h, Option.some.injEq, VNode.file.injEq]
      constructor
      · rintro rfl; exact ⟨rfl, h⟩
      · rintro ⟨rfl, _⟩; rfl
    · simp only [eligibleChild, if_neg h]
      constructor
      · rintro ⟨⟩
      · rintro ⟨heq, helig⟩
        cases heq
        exact absurd helig h
  | dir a b cs => simp [eligibleChild]

theorem mem_collectLoop (recursive includeHidden : Bool) (matcher : GlobMatcher)
    (outputPath : String) (excludedPatterns : List String) (fuel : Nat) :
    ∀ (stack : List VNode) (f : VFile),
      (f ∈ collectLoop recursive includeHidden matcher outputPath excludedPatterns
          fuel stack) ↔
      ∃ d, d ∈ reachableDirs recursive fuel stack ∧
        VNode.file f ∈ d.childrenOf ∧
        fileEligible includeHidden matcher outputPath excludedPatterns f = true := by
  induction fuel with
  | zero => intro stack f; simp [collectLoop, reachableDirs]
  | succ n ih =>
    intro stack f
    cases stack with
    | nil => simp [collectLoop, reachableDirs]
    | cons cur rest =>
      simp only [collectLoop, reachableDirs, List.mem_append, List.mem_filterMap,
        eligibleChild_eq_some, List.mem_cons, ih]
      constructor
      · rintro (⟨c, hc, rfl, helig⟩ | ⟨d, hd, hmem, helig⟩)
        · exact ⟨cur, Or.inl rfl, hc, helig⟩
        · exact ⟨d, Or.inr hd, hmem, helig⟩
      · rintro ⟨d, hd | hd, hmem, helig⟩
        · subst hd
          exact Or.inl ⟨VNode.file f, hmem, rfl, helig⟩
        · exact Or.inr ⟨d, hd, hmem, helig⟩

theorem mem_reachableDirs_of_mem_stack (recursive : Bool) :
    ∀ (fuel : Nat) (stack : List VNode) (n : VNode),
      lsize stack ≤ fuel → n ∈ stack → n ∈ reachableDirs recursive fuel stack := by
  intro fuel
  induction fuel with
  | zero =>
    intro stack n hle hmem
    cases stack with
    | nil => cases hmem
    | cons cur rest =>
      exfalso
      have := nsize_pos cur
      simp [lsize] at hle
      omega
  | succ m ih =>
    intro stack n hle hmem
    cases stack with
    | nil => cases hmem
    | cons cur rest =>
      simp only [reachableDirs, List.mem_cons]
      rcases List.mem_cons.mp hmem with rfl | hmem
      · exact Or.inl rfl
      · refine Or.inr (ih _ n ?_ ?_)
        · have h1 := lsize_pushed_le recursive cur
          have h2 : lsize ((if recursive then (cur.childrenOf.filter VNode.isDir).reverse else []) ++ rest) =
              lsize (if recursive then (cur.childrenOf.filter VNode.isDir).reverse else []) + lsize rest :=
            lsize_append _ _
          simp only [lsize] at hle
          omega
        · exact List.mem_append_right _ hmem

theorem mem_reachableDirs_child :
    ∀ (fuel : Nat) (stack : List VNode) (d c : VNode),
      lsize stack ≤ fuel → d ∈ stack → c ∈ d.childrenOf → c.isDir = true →
      c ∈ reachableDirs true fuel stack := by
  intro fuel
  induction fuel with
  | zero =>
    intro stack d c hle hmem _ _
    cases stack with
    | nil => cases hmem
    | cons cur rest =>
      exfalso
      have := nsize_pos cur
      simp [lsize] at hle
      omega
  | succ m ih =>
    intro stack d c hle hmem hchild hdir
    cases stack with
    | nil => cases hmem
    | cons cur rest =>
      have hfuel : lsize ((if true then (cur.childrenOf.filter VNode.isDir).reverse else []) ++ rest) ≤ m := by
        have h1 := lsize_pushed_le true cur
        have h2 := lsize_append (if true then (cur.childrenOf.filter VNode.isDir).reverse else []) rest
        simp only [lsize] at hle
        omega
      simp only [reachableDirs, List.mem_cons]
      rcases List.mem_cons.mp hmem with rfl | hmem
      · refine Or.inr (mem_reachableDirs_of_mem_stack true m _ c hfuel ?_)
        refine List.mem_append_left _ ?_
        simp only [if_pos trivial, List.mem_reverse, List.mem_filter]
        exact ⟨hchild, hdir⟩
      · exact Or.inr (ih _ d c hfuel (List.mem_append_right _ hmem) hchild hdir)

/-! ## The comparator is a total preorder -/

theorem char_toNat_inj {a b : Char} (h : a.toNat = b.toNat) : a = b :=
  Char.ext (UInt32.ext h)

theorem lexLe_total : ∀ a b : List Char, lexLe a b = true ∨ lexLe b a = true := by
  intro a
  induction a with
  | nil => intro b; left; rfl
  | cons x xs ih =>
    intro b
    cases b with
    | nil => right; rfl
    | cons y ys =>
      by_cases hxy : x = y
      · subst hxy
        rcases ih ys with h | h
        · left; simpa [lexLe] using h
        · right; simpa [lexLe] using h
      · have hne : x.toNat ≠ y.toNat := fun h => hxy (char_toNat_inj h)
        rcases Nat.lt_or_ge x.toNat y.toNat with h | h
        · left; simp [lexLe, if_neg hxy, h]
        · have h' : y.toNat < x.toNat := lt_of_le_of_ne h (fun e => hne e.symm)
          have hyx : ¬ y = x := fun e => hxy e.symm
          right
          simp [lexLe, if_neg hyx, h']

theorem lexLe_trans :
    ∀ a b c : List Char, lexLe a b = true → lexLe b c = true → lexLe a c = true := by
  intro a
  induction a with
  | nil => intro b c _ _; rfl
  | cons x xs ih =>
    intro b c hab hbc
    cases b with
    | nil => simp [lexLe] at hab
    | cons y ys =>
      cases c with
      | nil => simp [lexLe] at hbc
      | cons z zs =>
        simp only [lexLe] at hab hbc ⊢
        by_cases hxy : x = y
        · subst hxy
          rw [if_pos rfl] at hab
          by_cases hxz : x = z
          · subst hxz
            rw [if_pos rfl] at hbc ⊢
            exact ih ys zs hab hbc
          · rw [if_neg hxz] at hbc ⊢
            exact hbc
        · rw [if_neg hxy] at hab
          have h1 := of_decide_eq_true hab
          by_cases hyz : y = z
          · subst hyz
            rw [if_neg hxy]
            exact hab
          · rw [if_neg hyz] at hbc
            have h2 := of_decide_eq_true hbc
            have h3 : x.toNat < z.toNat := lt_trans h1 h2
            have hxz : x ≠ z := by
              intro h
              subst h
              exact absurd h3 (lt_irrefl _)
            rw [if_neg hxz]
            exact decide_eq_true h3

/-! ## Collector membership and sortedness -/

theorem mem_collectMarkdownFiles (s : MergePluginSettings) (matcher : GlobMatcher)
    (folder : VNode) (outputPath : String) (excludedPatterns : List String)
    (f : VFile) :
    f ∈ collectMarkdownFiles s matcher folder outputPath excludedPatterns ↔
      ∃ d, d ∈ reachableDirs s.recursive (nsize folder) [folder] ∧
        VNode.file f ∈ d.childrenOf ∧
        fileEligible s.includeHidden matcher outputPath excludedPatterns f = true := by
  unfold collectMarkdownFiles
  rw [List.mem_insertionSort]
  exact mem_collectLoop s.recursive s.includeHidden matcher outputPath
    excludedPatterns (nsize folder) [folder] f

theorem collectMarkdownFiles_sorted_by_name (s : MergePluginSettings)
    (matcher : GlobMatcher) (folder : VNode) (outputPath : String)
    (excludedPatterns : List String) :
    List.Sorted (fun a b : VFile => strLe a.name b.name = true)
      (collectMarkdownFiles s matcher folder outputPath excludedPatterns) := by
  haveI : IsTotal VFile (fun a b : VFile => strLe a.name b.name = true) :=
    ⟨fun a b => lexLe_total a.name.data b.name.data⟩
  haveI : IsTrans VFile (fun a b : VFile => strLe a.name b.name = true) :=
    ⟨fun a b c => lexLe_trans a.name.data b.name.data c.name.data⟩
  exact List.sorted_insertionSort _ _

/-! ## Folder-creation lemmas -/

theorem ensureFolderLoop_fst_mono :
    ∀ (parts : List String) (cur : String) (folders : List String) (x : String),
      x ∈ folders → x ∈ (ensureFolderLoop folders cur parts).fst := by
  intro parts
  induction parts with
  | nil => intro cur folders x hx; exact hx
  | cons part parts ih =>
    intro cur folders x hx
    simp only [ensureFolderLoop]
    by_cases hmem :
        (if cur = "" then part else cur ++ "/" ++ part) ∈ folders
    · rw [if_pos hmem]
      exact ih _ _ x hx
    · rw [if_neg hmem]
      exact ih _ _ x (List.mem_append_left _ hx)

theorem chainPaths_subset_fst :
    ∀ (parts : List String) (cur : String) (folders : List String) (p : String),
      p ∈ chainPaths cur parts → p ∈ (ensureFolderLoop folders cur parts).fst := by
  intro parts
  induction parts with
  | nil => intro cur folders p hp; cases hp
  | cons part parts ih =>
    intro cur folders p hp
    simp only [chainPaths, List.mem_cons] at hp
    simp only [ensureFolderLoop]
    by_cases hmem :
        (if cur = "" then part else cur ++ "/" ++ part) ∈ folders
    · rw [if_pos hmem]
      rcases hp with rfl | hp
      · exact ensureFolderLoop_fst_mono _ _ _ _ hmem
      · exact ih _ _ p hp
    · rw [if_neg hmem]
      rcases hp with rfl | hp
      · exact ensureFolderLoop_fst_mono _ _ _ _
          (List.mem_append_right _ (List.mem_singleton.mpr rfl))
      · exact ih _ _ p hp

theorem ensureFolderLoop_snd_nil :
    ∀ (parts : List String) (cur : String) (folders : List String),
      (∀ p ∈ chainPaths cur parts, p ∈ folders) →
      (ensureFolderLoop folders cur parts).snd = [] := by
  intro parts
  induction parts with
  | nil => intro cur folders _; rfl
  | cons part parts ih =>
    intro cur folders hall
    have hhead : (if cur = "" then part else cur ++ "/" ++ part) ∈ folders := by
      apply hall
      simp [chainPaths]
    simp only [ensureFolderLoop, if_pos hhead]
    apply ih
    intro p hp
    apply hall
    simp only [chainPaths, List.mem_cons]
    exact Or.inr hp

theorem ensureFolderLoop_snd_fresh :
    ∀ (parts : List String) (cur : String) (folders : List String) (p : String),
      p ∈ (ensureFolderLoop folders cur parts).snd → p ∉ folders := by
  intro parts
  induction parts with
  | nil => intro cur folders p hp; cases hp
  | cons part parts ih =>
    intro cur folders p hp
    simp only [ensureFolderLoop] at hp
    by_cases hmem :
        (if cur = "" then part else cur ++ "/" ++ part) ∈ folders
    · rw [if_pos hmem] at hp
      exact ih _ _ p hp
    · rw [if_neg hmem] at hp
      simp only [List.mem_cons] at hp
      rcases hp with rfl | hp
      · exact hmem
      · intro hinf
        exact ih _ _ p hp (List.mem_append_left _ hinf)

/-! ## Concrete fixtures used by witnesses and counterexamples -/

/-- A matcher that matches nothing (an empty exclusion configuration). -/
def noMatch : GlobMatcher := fun _ _ => false

/-- A matcher that excludes exact path matches only. -/
def eqMatch : GlobMatcher := fun path pat => path == pat

/-- `a.md`, basename `a`. -/
def fA : VFile := ⟨"a.md", "a.md", "a", "md"⟩

/-- `a.b.md`, basename `a.b` (a multi-dot name). -/
def fAB : VFile := ⟨"a.b.md", "a.b.md", "a.b", "md"⟩

/-- A hidden markdown file. -/
def fHidden : VFile := ⟨".h.md", ".h.md", ".h", "md"⟩

/-- A markdown file nested one folder down. -/
def fNested : VFile := ⟨"sub/n.md", "n.md", "n", "md"⟩

/-- A non-hidden markdown file inside a hidden folder. -/
def fInHidden : VFile := ⟨".hid/n.md", "n.md", "n", "md"⟩

/-- Root with the two multi-dot-related files. -/
def rootAB : VNode := .dir "" "" [.file fA, .file fAB]

/-- Root with a direct file and a nested file. -/
def rootNested : VNode := .dir "" "" [.file fA, .dir "sub" "sub" [.file fNested]]

/-- Root with a plain file and a hidden file. -/
def rootHidden : VNode := .dir "" "" [.file fA, .file fHidden]

/-- Root whose only child is a hidden folder holding a non-hidden file. -/
def rootHiddenDir : VNode := .dir "" "" [.dir ".hid" ".hid" [.file fInHidden]]

/-! ## Claim C2 -/

/-- C2: for every folder tree, exclusion pattern list and configuration,
the file whose path equals the resolved destination path is never in the
sequence returned by the collector, even if it has the `md` extension and
passes every other filter. -/
theorem claim_C2 (s : MergePluginSettings) (matcher : GlobMatcher)
    (folder : VNode) (outputPath : String) (excludedPatterns : List String)
    (f : VFile)
    (hf : f ∈ collectMarkdownFiles s matcher folder outputPath excludedPatterns) :
    f.path ≠ outputPath := by
  rcases (mem_collectMarkdownFiles s matcher folder outputPath
      excludedPatterns f).mp hf with ⟨d, _, _, helig⟩
  simp only [fileEligible, Bool.and_eq_true, bne_iff_ne, beq_iff_eq] at helig
  exact helig.1.1.2

theorem claim_C2_witness :
    fA ∈ collectMarkdownFiles DEFAULT_SETTINGS noMatch rootAB "merged/out.md" [] ∧
      fA.path ≠ "merged/out.md" :=
  ⟨by decide,
    claim_C2 DEFAULT_SETTINGS noMatch rootAB "merged/out.md" [] fA (by decide)⟩

/-! ## Claim C3 -/

theorem reachableDirs_nil (recursive : Bool) (fuel : Nat) :
    reachableDirs recursive fuel [] = [] := by
  cases fuel <;> rfl

theorem mem_reachableDirs_nonrec (fuel : Nat) (n d : VNode)
    (hd : d ∈ reachableDirs false fuel [n]) : d = n := by
  cases fuel with
  | zero => cases hd
  | succ m =>
    simp [reachableDirs, reachableDirs_nil] at hd
    exact hd

/-- C3: when the recursive flag is false, the collector considers only the
immediate children of the source folder: every collected file is a direct
child, so no file inside any subfolder ever appears, regardless of its
name or the exclusion patterns. -/
theorem claim_C3 (s : MergePluginSettings) (matcher : GlobMatcher)
    (folder : VNode) (outputPath : String) (excludedPatterns : List String)
    (f : VFile)
    (hrec : s.recursive = false)
    (hf : f ∈ collectMarkdownFiles s matcher folder outputPath excludedPatterns) :
    VNode.file f ∈ folder.childrenOf := by
  rcases (mem_collectMarkdownFiles s matcher folder outputPath
      excludedPatterns f).mp hf with ⟨d, hd, hmem, _⟩
  rw [hrec] at hd
  rwa [mem_reachableDirs_nonrec (nsize folder) folder d hd] at hmem

theorem claim_C3_witness :
    DEFAULT_SETTINGS.recursive = false ∧
      fA ∈ collectMarkdownFiles DEFAULT_SETTINGS noMatch rootNested "merged/out.md" [] ∧
      VNode.file fA ∈ rootNested.childrenOf :=
  ⟨rfl, by decide,
    claim_C3 DEFAULT_SETTINGS noMatch rootNested "merged/out.md" [] fA rfl (by decide)⟩

/-! ## Claim C6 -/

/-- C6: for every file passing the extension, hidden and self-exclusion
filters that the traversal reaches, and every exclusion pattern list, the
file is excluded iff its path matches at least one pattern (patterns are
OR-combined), and retained iff it matches none. -/
theorem claim_C6 (s : MergePluginSettings) (matcher : GlobMatcher)
    (folder : VNode) (outputPath : String) (excludedPatterns : List String)
    (d : VNode) (f : VFile)
    (hd : d ∈ reachableDirs s.recursive (nsize folder) [folder])
    (hmem : VNode.file f ∈ d.childrenOf)
    (hext : f.extension = "md")
    (hpath : f.path ≠ outputPath)
    (hhid : s.includeHidden = true ∨ jsStartsWith f.name "." = false) :
    (f ∈ collectMarkdownFiles s matcher folder outputPath excludedPatterns ↔
      excludedPatterns.any (fun pat => matcher f.path pat) = false) := by
  rw [mem_collectMarkdownFiles]
  constructor
  · rintro ⟨d', _, _, helig⟩
    simp only [fileEligible, Bool.and_eq_true, Bool.not_eq_true',
      beq_iff_eq, bne_iff_ne] at helig
    exact helig.1.2
  · intro hpat
    refine ⟨d, hd, hmem, ?_⟩
    simp only [fileEligible, Bool.and_eq_true, Bool.not_eq_true',
      beq_iff_eq, bne_iff_ne]
    refine ⟨⟨⟨hext, hpath⟩, hpat⟩, ?_⟩
    rcases hhid with h | h <;> simp [h]

theorem claim_C6_witness :
    (fA ∈ collectMarkdownFiles DEFAULT_SETTINGS eqMatch rootAB "merged/out.md"
        ["a.md"] ↔
      (["a.md"].any (fun pat => eqMatch fA.path pat) = false)) :=
  claim_C6 DEFAULT_SETTINGS eqMatch rootAB "merged/out.md" ["a.md"] rootAB fA
    (List.Mem.head _) (List.Mem.head _) rfl (by decide) (Or.inr (by decide))

/-! ## Claim C7 -/

/-- C7: when `includeHidden` is false no collected file's name starts with
a dot; when `includeHidden` is true that restriction is lifted and
membership is exactly reachability plus the extension, self-exclusion and
pattern filters. -/
theorem claim_C7 (s : MergePluginSettings) (matcher : GlobMatcher)
    (folder : VNode) (outputPath : String) (excludedPatterns : List String) :
    (s.includeHidden = false →
      ∀ f ∈ collectMarkdownFiles s matcher folder outputPath excludedPatterns,
        jsStartsWith f.name "." = false) ∧
    (s.includeHidden = true →
      ∀ f : VFile,
        f ∈ collectMarkdownFiles s matcher folder outputPath excludedPatterns ↔
          ((∃ d, d ∈ reachableDirs s.recursive (nsize folder) [folder] ∧
              VNode.file f ∈ d.childrenOf) ∧
            f.extension = "md" ∧ f.path ≠ outputPath ∧
            excludedPatterns.any (fun pat => matcher f.path pat) = false)) := by
  constructor
  · intro hhid f hf
    rcases (mem_collectMarkdownFiles s matcher folder outputPath
        excludedPatterns f).mp hf with ⟨d, _, _, helig⟩
    simp only [fileEligible, hhid, Bool.false_or, Bool.and_eq_true,
      Bool.not_eq_true'] at helig
    exact helig.2
  · intro hhid f
    rw [mem_collectMarkdownFiles]
    simp only [fileEligible, hhid, Bool.true_or, Bool.and_true,
      Bool.and_eq_true, Bool.not_eq_true', beq_iff_eq, bne_iff_ne]
    constructor
    · rintro ⟨d, hd, hmem, ⟨⟨hext, hpath⟩, hpat⟩⟩
      exact ⟨⟨d, hd, hmem⟩, hext, hpath, hpat⟩
    · rintro ⟨⟨d, hd, hmem⟩, hext, hpath, hpat⟩
      exact ⟨d, hd, hmem, ⟨⟨hext, hpath⟩, hpat⟩⟩

theorem claim_C7_witness :
    jsStartsWith fA.name "." = false :=
  (claim_C7 DEFAULT_SETTINGS noMatch rootHidden "merged/out.md" []).1 rfl fA
    (by decide)

/-! ## Claim C9 -/

/-- C9: in recursive mode the hidden-name filter applies only to files,
not to folders: any folder child of the source folder, whatever its name
(in particular one starting with a dot), is descended into even when
`includeHidden` is false, so its eligible non-hidden `md` files are
collected. -/
theorem claim_C9 (s : MergePluginSettings) (matcher : GlobMatcher)
    (folder : VNode) (outputPath : String) (excludedPatterns : List String)
    (dname dpath : String) (dchildren : List VNode) (f : VFile)
    (hrec : s.recursive = true)
    (hhid : s.includeHidden = false)
    (hchild : VNode.dir dname dpath dchildren ∈ folder.childrenOf)
    (hfmem : VNode.file f ∈ dchildren)
    (hext : f.extension = "md")
    (hpath : f.path ≠ outputPath)
    (hpat : excludedPatterns.any (fun pat => matcher f.path pat) = false)
    (hfname : jsStartsWith f.name "." = false) :
    f ∈ collectMarkdownFiles s matcher folder outputPath excludedPatterns := by
  rw [mem_collectMarkdownFiles]
  refine ⟨VNode.dir dname dpath dchildren, ?_, hfmem, ?_⟩
  · rw [hrec]
    refine mem_reachableDirs_child (nsize folder) [folder] folder
      (VNode.dir dname dpath dchildren) ?_ (List.Mem.head _) hchild rfl
    simp [lsize]
  · simp only [fileEligible, Bool.and_eq_true, Bool.not_eq_true',
      beq_iff_eq, bne_iff_ne]
    exact ⟨⟨⟨hext, hpath⟩, hpat⟩, by simp [hhid, hfname]⟩

theorem claim_C9_witness :
    fInHidden ∈ collectMarkdownFiles { DEFAULT_SETTINGS with recursive := true }
      noMatch rootHiddenDir "merged/out.md" [] :=
  claim_C9 { DEFAULT_SETTINGS with recursive := true } noMatch rootHiddenDir
    "merged/out.md" [] ".hid" ".hid" [.file fInHidden] fInHidden rfl rfl
    (List.Mem.head _) (List.Mem.head _) rfl (by decide) rfl (by decide)

/-! ## Claim C1 -/

/-- C1 counterexample: with files `a.md` (basename `a`) and `a.b.md`
(basename `a.b`) the collector returns them ordered `a.b.md`, `a.md`
(full-name order), while base-name order would put `a` first; so the
returned sequence is not sorted by extension-stripped base names.  The
divergence is not an artifact of the code-point model: under the ICU
default collation the full stop also carries a primary weight, so
`a.b.md` precedes `a.md` there as well while `a` precedes `a.b`. -/
theorem claim_C1_counterexample :
    ¬ List.Sorted (fun a b : VFile => strLe a.basename b.basename = true)
      (collectMarkdownFiles DEFAULT_SETTINGS noMatch rootAB "merged/out.md" []) := by
  decide

/-- C1 (amended): the sequence returned by the walker is sorted ascending
by the files' full names (`TFile.name`, extension included) under the
modelled locale-aware lexicographic comparison; the full name, not the
extension-stripped base name, is the sort key
(`a.name.localeCompare(b.name)`). -/
theorem claim_C1_amended (s : MergePluginSettings) (matcher : GlobMatcher)
    (folder : VNode) (outputPath : String) (excludedPatterns : List String) :
    List.Sorted (fun a b : VFile => strLe a.name b.name = true)
      (collectMarkdownFiles s matcher folder outputPath excludedPatterns) :=
  collectMarkdownFiles_sorted_by_name s matcher folder outputPath excludedPatterns

/-! ## Claim C4 -/

/-- C4: the resolved destination path is obtained by substituting `{date}`
in the trimmed filename template with the invocation's current date,
appending a `.md` suffix if the resulting name does not already end with
one case-insensitively, stripping leading and trailing path separators
from the output folder component, and joining folder and filename with a
single `/`, the folder segment omitted entirely when it is empty: the
code's computation coincides with the spec's recipe on every input. -/
theorem claim_C4 (outputFolderSetting outputFileNameSetting today : String) :
    resolveDestination outputFolderSetting outputFileNameSetting today =
      specResolveDestination outputFolderSetting outputFileNameSetting today := rfl

example :
    resolveDestination "merged" "out-{date}.md" "2024-01-01" =
      "merged/out-2024-01-01.md" := by decide

example :
    resolveDestination " /out/ " "report-{date}" "2024-01-01" =
      "out/report-2024-01-01.md" := by decide

example : resolveDestination "" "notes.MD" "2024-01-01" = "notes.MD" := by decide

/-! ## Claim C8 -/

/-- C8: `ensureFolderExists` walks the `/`-separated prefix chain left to
right and creates a prefix only when it is absent, so a creation never
targets an already-existing folder, and a second run over the updated
folder set issues no creation at all. -/
theorem claim_C8 (path : String) (folders : List String) (hpath : path ≠ "") :
    (∀ p ∈ (ensureFolderExists path folders).snd, p ∉ folders) ∧
      (ensureFolderExists path (ensureFolderExists path folders).fst).snd = [] := by
  constructor
  · intro p hp
    unfold ensureFolderExists at hp
    rw [if_neg hpath] at hp
    exact ensureFolderLoop_snd_fresh _ _ _ p hp
  · unfold ensureFolderExists
    rw [if_neg hpath, if_neg hpath]
    apply ensureFolderLoop_snd_nil
    intro p hp
    exact chainPaths_subset_fst _ _ _ p hp

theorem claim_C8_witness :
    ("a/b" ≠ "") ∧
      ((∀ p ∈ (ensureFolderExists "a/b" []).snd, p ∉ ([] : List String)) ∧
        (ensureFolderExists "a/b" (ensureFolderExists "a/b" []).fst).snd = []) :=
  ⟨by decide, claim_C8 "a/b" [] (by decide)⟩

example : ensureFolderExists "a/b" [] = (["a", "a/b"], ["a", "a/b"]) := by decide

example : ensureFolderExists "a/b" ["a"] = (["a", "a/b"], ["a/b"]) := by decide

/-! ## Claims C5 and C10 -/

/-- C5: when the collector returns zero eligible files the merge aborts
after emitting the "nothing to merge" notice and the file store is
untouched: the destination file, if present, keeps its prior content and
no empty output is written. -/
theorem claim_C5 (s : MergePluginSettings) (matcher : GlobMatcher)
    (today : String) (v : Vault) (folder : VNode)
    (hres : resolveSourceFolder s v = some folder)
    (hempty : collectMarkdownFiles s matcher folder
        (resolveDestination s.outputFolder s.outputFileName today)
        (parseExcludedPatterns s.excludedFiles) = []) :
    (mergeMarkdownFiles s matcher today v).fst.files = v.files ∧
      "No markdown files found to merge." ∈
        (mergeMarkdownFiles s matcher today v).snd := by
  unfold mergeMarkdownFiles
  rw [hres]
  simp only [hempty, List.length_nil, if_pos rfl]
  exact ⟨rfl, List.Mem.head _⟩

/-- The vault of the C5 witness: an empty root folder and a pre-existing
destination file with prior content. -/
def vaultC5 : Vault :=
  { tree := .dir "" "" []
    folders := ["merged"]
    files := [("merged/merged-output-2024-01-01.md", "prior content")] }

theorem claim_C5_witness :
    (mergeMarkdownFiles DEFAULT_SETTINGS noMatch "2024-01-01" vaultC5).fst.files =
        vaultC5.files ∧
      "No markdown files found to merge." ∈
        (mergeMarkdownFiles DEFAULT_SETTINGS noMatch "2024-01-01" vaultC5).snd :=
  claim_C5 DEFAULT_SETTINGS noMatch "2024-01-01" vaultC5 (.dir "" "" []) rfl rfl

/-- C10: with a resolvable source folder and a non-empty resolved output
folder component, the whole destination folder chain exists in the result
state even when the merge then aborts with zero eligible files and leaves
the file store untouched: folder creation happens before collection. -/
theorem claim_C10 (s : MergePluginSettings) (matcher : GlobMatcher)
    (today : String) (v : Vault) (folder : VNode)
    (hres : resolveSourceFolder s v = some folder)
    (hfp : stripSlashes (jsTrim s.outputFolder) ≠ "")
    (hempty : collectMarkdownFiles s matcher folder
        (resolveDestination s.outputFolder s.outputFileName today)
        (parseExcludedPatterns s.excludedFiles) = []) :
    (∀ p ∈ folderChain (stripSlashes (jsTrim s.outputFolder)),
        p ∈ (mergeMarkdownFiles s matcher today v).fst.folders) ∧
      (mergeMarkdownFiles s matcher today v).fst.files = v.files := by
  unfold mergeMarkdownFiles
  rw [hres]
  simp only [hempty, List.length_nil, if_pos rfl]
  constructor
  · intro p hp
    unfold ensureFolderExists
    rw [if_neg hfp]
    exact chainPaths_subset_fst _ _ _ p hp
  · rfl

/-- The vault of the C10 witness: everything absent. -/
def vaultC10 : Vault := { tree := .dir "" "" [], folders := [], files := [] }

theorem claim_C10_witness :
    (∀ p ∈ folderChain (stripSlashes (jsTrim DEFAULT_SETTINGS.outputFolder)),
        p ∈ (mergeMarkdownFiles DEFAULT_SETTINGS noMatch "2024-01-01"
            vaultC10).fst.folders) ∧
      (mergeMarkdownFiles DEFAULT_SETTINGS noMatch "2024-01-01"
          vaultC10).fst.files = vaultC10.files :=
  claim_C10 DEFAULT_SETTINGS noMatch "2024-01-01" vaultC10 (.dir "" "" []) rfl
    (by decide) rfl

example :
    (mergeMarkdownFiles DEFAULT_SETTINGS noMatch "2024-01-01" vaultC10).fst.folders =
      ["merged"] := by decide
